import Mathlib

/-!
Verification of the Yota-Signal-Bot backend core: the trade/signal store and
its ingestion endpoints (`src/backend/server.ts`, `src/backend/db.ts`), and the
agent-memory replica with its merge function (`MemoryService` in the client
service module, `src/unnamed/part_004`).

Embedding conventions:
* JavaScript numbers used for prices/pnl are modelled as rationals (`ℚ`);
  timestamps and XP counters, which every code path keeps as non-negative
  integers, are modelled as `Nat`.
* A JavaScript `x || d` default on a number is falsy at `0`, on a string at
  `""`; the `jsNumOr`/`jsStrOr` helpers reproduce that.  `x ?? d` (nullish
  coalescing) is `Option.getD`.
* `better-sqlite3` prepared statements reject a bind object that misses a
  named parameter.  The two call sites that pass a partial object to the full
  `UPDATE trades` statement (webhook TRADE_CLOSE on a known id, and
  TRADE_UPDATE) therefore throw, are caught by the route's try/catch, and
  answer 500 with no state change; they are embedded as such.
-/

namespace Yota

/-- Trade/signal direction (`'LONG' | 'SHORT'`). -/
inductive Direction where
  | LONG
  | SHORT
deriving DecidableEq, Repr

/-- Stored trade outcome (`'WIN' | 'LOSS' | 'BREAKEVEN' | 'OPEN'`). -/
inductive Outcome where
  | WIN
  | LOSS
  | BREAKEVEN
  | OPEN
deriving DecidableEq, Repr

/-- The webhook payload's outcome field (`'WIN' | 'LOSS' | 'BREAKEVEN'`):
the `WebhookPayload` interface does not admit `'OPEN'`. -/
inductive ClosedOutcome where
  | WIN
  | LOSS
  | BREAKEVEN
deriving DecidableEq, Repr

/-- Injection of the payload outcome into the stored outcome type. -/
def ClosedOutcome.toOutcome : ClosedOutcome → Outcome
  | .WIN => .WIN
  | .LOSS => .LOSS
  | .BREAKEVEN => .BREAKEVEN

/-- Trend context tag (`'UP' | 'DOWN' | 'CHOPPY'`). -/
inductive TrendContext where
  | UP
  | DOWN
  | CHOPPY
deriving DecidableEq, Repr

/-- Signal confidence (`'HIGH' | 'MEDIUM' | 'LOW'`). -/
inductive Confidence where
  | HIGH
  | MEDIUM
  | LOW
deriving DecidableEq, Repr

/-- Signal status (`'WATCHING' | 'TRIGGERED' | 'WON' | 'LOST' | 'EXPIRED'`). -/
inductive SignalStatus where
  | WATCHING
  | TRIGGERED
  | WON
  | LOST
  | EXPIRED
deriving DecidableEq, Repr

/-- A row of the `trades` table (`DbTrade` in `db.ts`).  The `outcome` column
is nullable in the schema but every code path writes one of the four enum
values, so it is embedded as non-optional; `created_at` is database-generated
and never read by the server code, so it is omitted. -/
structure DbTrade where
  id : String
  pair : String
  direction : Direction
  entry_price : ℚ
  exit_price : Option ℚ
  stop_loss : Option ℚ
  take_profit : Option ℚ
  leverage : ℚ
  pnl : ℚ
  pnl_percent : ℚ
  outcome : Outcome
  strategy : String
  notes : Option String
  checklist_grade : Option String
  source : String
  timestamp : Nat
  closed_at : Option Nat
deriving DecidableEq, Repr

/-- A row of the `signals` table (`DbSignal` in `db.ts`). -/
structure DbSignal where
  id : String
  pair : String
  direction : Direction
  entry_price : ℚ
  stop_loss : Option ℚ
  take_profit : Option ℚ
  strategy : String
  confidence : Confidence
  status : SignalStatus
  reasoning : Option String
  pnl : Option ℚ
  timestamp : Nat
deriving DecidableEq, Repr

/-- A row of the `learning_events` table (`DbLearningEvent` in `db.ts`). -/
structure DbLearningEvent where
  id : String
  trade_id : Option String
  lesson : String
  pattern_type : Option String
  trend_context : Option TrendContext
  market_context : Option String
  timestamp : Nat
deriving DecidableEq, Repr

/-- The mutable server-side store: the three tables the ingestion endpoints
write to. -/
structure ServerState where
  trades : List DbTrade
  signals : List DbSignal
  learning : List DbLearningEvent
deriving DecidableEq, Repr

/-- JavaScript `x || d` for an optional number: `undefined` and `0` fall back. -/
def jsNumOr (o : Option ℚ) (d : ℚ) : ℚ :=
  match o with
  | none => d
  | some v => if v = 0 then d else v

/-- JavaScript `x || null` for an optional number: `0` becomes `null`. -/
def jsNumOrNull (o : Option ℚ) : Option ℚ :=
  match o with
  | none => none
  | some v => if v = 0 then none else some v

/-- JavaScript `x || d` for an optional timestamp: `undefined` and `0` fall back. -/
def jsNatOr (o : Option Nat) (d : Nat) : Nat :=
  match o with
  | none => d
  | some v => if v = 0 then d else v

/-- JavaScript `s || d` for an optional string: `undefined` and `""` fall back. -/
def jsStrOr (o : Option String) (d : String) : String :=
  match o with
  | none => d
  | some s => if s = "" then d else s

/-- JavaScript `s || d` for a required string field: `""` falls back. -/
def jsStrOrP (s : String) (d : String) : String :=
  if s = "" then d else s

/-- JavaScript `s || null` for an optional string: `""` becomes `null`. -/
def jsStrOrNull (o : Option String) : Option String :=
  match o with
  | none => none
  | some s => if s = "" then none else some s

/-- Sign factor of a direction, as used in every pnl formula:
`direction === 'LONG' ? 1 : -1`. -/
def dirSign : Direction → ℚ
  | .LONG => 1
  | .SHORT => -1

/-- `tradeDb.getById`: `SELECT * FROM trades WHERE id = ?` (id is the primary
key, so the first match is the row). -/
def findById (l : List DbTrade) (i : String) : Option DbTrade :=
  l.find? (fun r => r.id = i)

/-- The update applied to a conflicting row by `insertTrade`'s
`ON CONFLICT(id) DO UPDATE SET`: exactly pair, direction, entry_price,
stop_loss, take_profit, leverage and strategy are overwritten. -/
def conflictUpdate (old t : DbTrade) : DbTrade :=
  { old with
    pair := t.pair
    direction := t.direction
    entry_price := t.entry_price
    stop_loss := t.stop_loss
    take_profit := t.take_profit
    leverage := t.leverage
    strategy := t.strategy }

/-- `tradeDb.insert`: `INSERT ... ON CONFLICT(id) DO UPDATE SET ...`. -/
def upsertTrade (l : List DbTrade) (t : DbTrade) : List DbTrade :=
  if l.any (fun r => r.id = t.id) then
    l.map (fun old => if old.id = t.id then conflictUpdate old t else old)
  else
    l ++ [t]

/-- `tradeDb.update`: the full-row `UPDATE trades SET ...` prepared statement.
All seven updated columns must be bound (better-sqlite3 rejects a partial
bind object); callers that bind a partial object never reach this point. -/
def updateTradeRow (l : List DbTrade) (i : String) (exit_price : Option ℚ)
    (pnl pnl_percent : ℚ) (outcome : Outcome) (notes checklist_grade : Option String)
    (closed_at : Option Nat) : List DbTrade :=
  l.map (fun old =>
    if old.id = i then
      { old with
        exit_price := exit_price
        pnl := pnl
        pnl_percent := pnl_percent
        outcome := outcome
        notes := notes
        checklist_grade := checklist_grade
        closed_at := closed_at }
    else old)

/-- Stable insertion into a timestamp-descending list, used to model
`ORDER BY timestamp DESC`. -/
def insertTsDesc (x : DbTrade) : List DbTrade → List DbTrade
  | [] => [x]
  | y :: ys => if x.timestamp ≤ y.timestamp then y :: insertTsDesc x ys else x :: y :: ys

/-- `SELECT * FROM trades ORDER BY timestamp DESC` (stable on ties). -/
def sortTsDesc (l : List DbTrade) : List DbTrade :=
  l.foldl (fun acc x => insertTsDesc x acc) []

/-- `tradeDb.getAll(limit, offset)` with offset 0, as called by `analyzeTrade`. -/
def getAllTrades (st : ServerState) (limit : Nat) : List DbTrade :=
  (sortTsDesc st.trades).take limit

/-- The consecutive-loss counter of `analyzeTrade` (and of the client's
`LearningService.getConsecutiveLosses`): walk the list from the head,
counting `'LOSS'` outcomes until any other outcome breaks the run. -/
def consecutiveLosses : List DbTrade → Nat
  | [] => 0
  | t :: ts => if t.outcome = .LOSS then consecutiveLosses ts + 1 else 0

/-- The per-strategy aggregate produced by `strategyDb.getStats()` for one
strategy label: counts and conditional averages over rows with
`outcome IN ('WIN','LOSS','BREAKEVEN')` and that strategy.  `avg_win`/
`avg_loss` are `COALESCE(AVG(...), 0)`; division by a zero count yields 0 in
`ℚ`, matching the COALESCE. -/
structure StratAgg where
  win_count : ℚ
  loss_count : ℚ
  avg_win : ℚ
  avg_loss : ℚ
deriving DecidableEq, Repr

/-- `strategyDb.getStats().find(s => s.strategy === strat)`: `some` exactly
when at least one closed row carries the strategy (GROUP BY produces a group
only for non-empty row sets). -/
def strategyAggFor (trades : List DbTrade) (strat : String) : Option StratAgg :=
  let rows := trades.filter (fun t => t.outcome ≠ .OPEN ∧ t.strategy = strat)
  if rows.isEmpty then none
  else
    let wins := rows.filter (fun t => t.outcome = .WIN)
    let losses := rows.filter (fun t => t.outcome = .LOSS)
    let avgW : ℚ := (wins.map (fun t => t.pnl)).sum / (wins.length : ℚ)
    let avgL : ℚ := (losses.map (fun t => t.pnl)).sum / (losses.length : ℚ)
    some ⟨(wins.length : ℚ), (losses.length : ℚ), avgW, avgL⟩

/-- `analyzeTrade(trade)`: pattern detection run synchronously after a close.
Returns the learning-event rows it inserts and the events it broadcasts.
`u1 u2 u3` stand for the `randomUUID()` draws; the hour of day is taken from
the UTC clock (`Date.getHours` uses the server's local zone; the offset does
not affect any verified property), and the `toFixed(2)` profit-factor
rendering inside the strategy lesson text is abbreviated to `toString`. -/
def analyzeTrade (st : ServerState) (trade : DbTrade) (now : Nat)
    (u1 u2 u3 : String) : List DbLearningEvent × List String :=
  let recent := getAllTrades st 10
  let cl := consecutiveLosses recent
  let ev1 : List DbLearningEvent :=
    if 3 ≤ cl then
      [⟨u1, some trade.id,
        "Detected " ++ toString cl ++ " consecutive losses. Consider reducing position size.",
        some "CONSECUTIVE_LOSSES", some .CHOPPY, none, now⟩]
    else []
  let hour := trade.timestamp / 3600000 % 24
  let ev2 : List DbLearningEvent :=
    if trade.outcome = .WIN then
      [⟨u2, some trade.id,
        "Winning trade at " ++ toString hour ++ ":00. Consider this as a favorable trading hour.",
        some "TIME_PERFORMANCE", none, some ("Hour: " ++ toString hour), now⟩]
    else []
  let ev3 : List DbLearningEvent :=
    match strategyAggFor st.trades (jsStrOrP trade.strategy "Manual") with
    | none => []
    | some s =>
      let pf := s.win_count * |s.avg_win| / (s.loss_count * |s.avg_loss| + 1)
      if 2 < pf then
        [⟨u3, some trade.id,
          trade.strategy ++ " strategy performing well (PF: " ++ toString pf.num ++ "). Prioritize this setup.",
          some "STRATEGY_PERFORMANCE", none, none, now⟩]
      else if pf < 1 / 2 then
        [⟨u3, some trade.id,
          trade.strategy ++ " strategy underperforming (PF: " ++ toString pf.num ++ "). Review and adjust.",
          some "STRATEGY_PERFORMANCE", none, none, now⟩]
      else []
  let bc : List String := if 3 ≤ cl then ["learning_update"] else []
  (ev1 ++ ev2 ++ ev3, bc)

/-- The `type` discriminator of a `WebhookPayload`. -/
inductive PayloadType where
  | TRADE_OPEN
  | TRADE_CLOSE
  | TRADE_UPDATE
  | SIGNAL_NEW
  | SIGNAL_UPDATE
deriving DecidableEq, Repr

/-- The `trade` member of a `WebhookPayload`. -/
structure WebhookTrade where
  id : String
  pair : String
  direction : Direction
  entryPrice : ℚ
  exitPrice : Option ℚ
  stopLoss : Option ℚ
  takeProfit : Option ℚ
  leverage : Option ℚ
  pnl : Option ℚ
  pnlPercent : Option ℚ
  outcome : Option ClosedOutcome
  strategy : Option String
  timestamp : Option Nat
deriving DecidableEq, Repr

/-- The `signal` member of a `WebhookPayload`. -/
structure WebhookSignal where
  id : String
  pair : String
  direction : Direction
  entryPrice : ℚ
  stopLoss : Option ℚ
  takeProfit : Option ℚ
  strategy : Option String
  confidence : Option Confidence
  status : Option SignalStatus
  reasoning : Option String
  pnl : Option ℚ
deriving DecidableEq, Repr

/-- A `POST /api/webhook/trade` body. -/
structure TradePayload where
  secret : String
  ptype : PayloadType
  trade : Option WebhookTrade
deriving DecidableEq, Repr

/-- A `POST /api/webhook/signal` body. -/
structure SignalPayload where
  secret : String
  ptype : PayloadType
  signal : Option WebhookSignal
deriving DecidableEq, Repr

/-- The row built by the TRADE_OPEN branch (server.ts lines 129-147):
derived fields are hard-coded regardless of what the payload carries. -/
def openRecord (t : WebhookTrade) (now : Nat) (uuid : String) : DbTrade :=
  { id := jsStrOrP t.id uuid
    pair := t.pair
    direction := t.direction
    entry_price := t.entryPrice
    exit_price := none
    stop_loss := jsNumOrNull t.stopLoss
    take_profit := jsNumOrNull t.takeProfit
    leverage := jsNumOr t.leverage 1
    pnl := 0
    pnl_percent := 0
    outcome := .OPEN
    strategy := jsStrOr t.strategy "Manual"
    notes := none
    checklist_grade := none
    source := "webhook"
    timestamp := jsNatOr t.timestamp now
    closed_at := none }

/-- The synthesized closed row built by the TRADE_CLOSE branch when the id is
unknown (server.ts lines 190-221), with the server-side pnl/pnlPercent/outcome
derivation for omitted fields. -/
def closeFreshRecord (t : WebhookTrade) (now : Nat) (uuid : String) : DbTrade :=
  let exitPrice := t.exitPrice.getD t.entryPrice
  let lev := jsNumOr t.leverage 1
  let pnl := t.pnl.getD ((exitPrice - t.entryPrice) * dirSign t.direction * lev)
  let pnlPercent := t.pnlPercent.getD (pnl / t.entryPrice * 100)
  let outcome :=
    match t.outcome with
    | some o => o.toOutcome
    | none => if 0 < pnl then Outcome.WIN else if pnl < 0 then Outcome.LOSS else Outcome.BREAKEVEN
  { id := jsStrOrP t.id uuid
    pair := t.pair
    direction := t.direction
    entry_price := t.entryPrice
    exit_price := some exitPrice
    stop_loss := jsNumOrNull t.stopLoss
    take_profit := jsNumOrNull t.takeProfit
    leverage := lev
    pnl := pnl
    pnl_percent := pnlPercent
    outcome := outcome
    strategy := jsStrOr t.strategy "Manual"
    notes := none
    checklist_grade := none
    source := "webhook"
    timestamp := jsNatOr t.timestamp now
    closed_at := some now }

/-- `POST /api/webhook/trade`.  Result: new state, HTTP status, broadcast
event names in emission order.  The TRADE_CLOSE known-id branch and the
TRADE_UPDATE branch bind a partial object to the full `UPDATE trades`
statement; better-sqlite3 throws on the missing named parameters
(`notes`/`checklist_grade` resp. most columns), the route's catch answers
500, and no state changes. -/
def handleTradeCore (pty : PayloadType) (t : WebhookTrade) (st : ServerState)
    (now : Nat) (uuid u1 u2 u3 : String) : ServerState × Nat × List String :=
  -- the if/else-if dispatch on payload.type of the route body, after the
  -- secret and missing-trade guards have passed
  match pty with
  | .TRADE_OPEN =>
    ({ st with trades := upsertTrade st.trades (openRecord t now uuid) },
      200, ["trade_open"])
  | .TRADE_CLOSE =>
    match findById st.trades t.id with
    | some _ => (st, 500, [])
    | none =>
      let r := closeFreshRecord t now uuid
      let st1 := { st with trades := upsertTrade st.trades r }
      let a := analyzeTrade st1 r now u1 u2 u3
      ({ st1 with learning := st1.learning ++ a.1 },
        200, ["trade_close", "stats_update"] ++ a.2)
  | .TRADE_UPDATE => (st, 500, [])
  | _ => (st, 200, [])

def handleWebhookTrade (cfgSecret : String) (p : TradePayload) (st : ServerState)
    (now : Nat) (uuid u1 u2 u3 : String) : ServerState × Nat × List String :=
  if p.secret ≠ cfgSecret then (st, 401, [])
  else
    match p.trade with
    | none => (st, 400, [])
    | some t => handleTradeCore p.ptype t st now uuid u1 u2 u3

/-- `POST /api/webhook/signal`.  SIGNAL_NEW uses a plain INSERT, so a
duplicate primary key throws and the catch answers 500. -/
def handleWebhookSignal (cfgSecret : String) (p : SignalPayload) (st : ServerState)
    (now : Nat) (uuid : String) : ServerState × Nat × List String :=
  if p.secret ≠ cfgSecret then (st, 401, [])
  else
    match p.signal with
    | none => (st, 400, [])
    | some s =>
      match p.ptype with
      | .SIGNAL_NEW =>
        let row : DbSignal :=
          { id := jsStrOrP s.id uuid
            pair := s.pair
            direction := s.direction
            entry_price := s.entryPrice
            stop_loss := jsNumOrNull s.stopLoss
            take_profit := jsNumOrNull s.takeProfit
            strategy := jsStrOr s.strategy "Manual"
            confidence := s.confidence.getD .MEDIUM
            status := s.status.getD .WATCHING
            reasoning := jsStrOrNull s.reasoning
            pnl := none
            timestamp := now }
        if st.signals.any (fun r => r.id = row.id) then (st, 500, [])
        else ({ st with signals := st.signals ++ [row] }, 200, ["signal_new"])
      | .SIGNAL_UPDATE =>
        ({ st with signals := st.signals.map (fun old =>
            if old.id = s.id then
              { old with status := s.status.getD .WATCHING, pnl := jsNumOrNull s.pnl }
            else old) },
          200, ["signal_update"])
      | _ => (st, 200, [])

/-- A `POST /api/trades` body.  The route reads `req.body` untyped, so the
outcome field may carry any of the four enum values, including `'OPEN'`. -/
structure ManualTradeInput where
  id : Option String
  pair : String
  direction : Direction
  entryPrice : ℚ
  exitPrice : Option ℚ
  stopLoss : Option ℚ
  takeProfit : Option ℚ
  leverage : Option ℚ
  pnl : Option ℚ
  pnlPercent : Option ℚ
  outcome : Option Outcome
  strategy : Option String
  notes : Option String
  checklistGrade : Option String
  timestamp : Option Nat
deriving DecidableEq, Repr

/-- Truthiness of `trade.exitPrice`, which gates both the outcome default and
`closed_at` in the manual-create route (`trade.exitPrice ? ... : ...`). -/
def exitTruthy (o : Option ℚ) : Bool :=
  match o with
  | none => false
  | some v => v ≠ 0

/-- The row built by `POST /api/trades` (server.ts lines 338-356): omitted
pnl/pnlPercent default to 0, an omitted outcome to `'BREAKEVEN'` or `'OPEN'`
by exit-price truthiness, and `closed_at` follows exit-price truthiness. -/
def manualRecord (input : ManualTradeInput) (now : Nat) (uuid : String) : DbTrade :=
  { id := jsStrOr input.id uuid
    pair := input.pair
    direction := input.direction
    entry_price := input.entryPrice
    exit_price := jsNumOrNull input.exitPrice
    stop_loss := jsNumOrNull input.stopLoss
    take_profit := jsNumOrNull input.takeProfit
    leverage := jsNumOr input.leverage 1
    pnl := jsNumOr input.pnl 0
    pnl_percent := jsNumOr input.pnlPercent 0
    outcome :=
      match input.outcome with
      | some o => o
      | none => if exitTruthy input.exitPrice then .BREAKEVEN else .OPEN
    strategy := jsStrOr input.strategy "Manual"
    notes := jsStrOrNull input.notes
    checklist_grade := jsStrOrNull input.checklistGrade
    source := "manual"
    timestamp := jsNatOr input.timestamp now
    closed_at := if exitTruthy input.exitPrice then some now else none }

/-- `POST /api/trades`: upsert the manual row; when the row is closed, run
`analyzeTrade` (its `learning_update` broadcast precedes the trade event). -/
def createTradeManual (input : ManualTradeInput) (st : ServerState) (now : Nat)
    (uuid u1 u2 u3 : String) : ServerState × Nat × List String :=
  let r := manualRecord input now uuid
  let st1 := { st with trades := upsertTrade st.trades r }
  if r.outcome ≠ .OPEN then
    let a := analyzeTrade st1 r now u1 u2 u3
    ({ st1 with learning := st1.learning ++ a.1 },
      201, a.2 ++ ["trade_close", "stats_update"])
  else
    (st1, 201, ["trade_open", "stats_update"])

/-- A `PATCH /api/trades/:id` body (untyped `req.body`; absent fields are
`undefined`, merged with `??`). -/
structure PatchInput where
  exitPrice : Option ℚ
  pnl : Option ℚ
  pnlPercent : Option ℚ
  outcome : Option Outcome
  notes : Option String
  checklistGrade : Option String
deriving DecidableEq, Repr

/-- `PATCH /api/trades/:id` (server.ts lines 377-400): 404 on an unknown id;
otherwise a full-row update where each field is `updates.x ?? existing.x` and
`closed_at` is reset to `now` exactly when the patch carries a non-OPEN
outcome. -/
def patchTradeManual (tid : String) (u : PatchInput) (st : ServerState)
    (now : Nat) : ServerState × Nat × List String :=
  match findById st.trades tid with
  | none => (st, 404, [])
  | some ex =>
    let newOutcome := u.outcome.getD ex.outcome
    let newClosedAt :=
      if (match u.outcome with | some o => !(o == Outcome.OPEN) | none => false : Bool) then some now
      else ex.closed_at
    let trades' := updateTradeRow st.trades tid
      (match u.exitPrice with | some v => some v | none => ex.exit_price)
      (u.pnl.getD ex.pnl)
      (u.pnlPercent.getD ex.pnl_percent)
      newOutcome
      (match u.notes with | some s => some s | none => ex.notes)
      (match u.checklistGrade with | some s => some s | none => ex.checklist_grade)
      newClosedAt
    ({ st with trades := trades' }, 200, ["trade_update", "stats_update"])

/-- An `AgentLesson` (`types.ts`). -/
structure AgentLesson where
  id : String
  timestamp : Nat
  trendContext : TrendContext
  insight : String
deriving DecidableEq, Repr

/-- An `AgentMemory` replica (`types.ts`). -/
structure AgentMemory where
  level : Nat
  currentXp : Nat
  nextLevelXp : Nat
  brainVersion : String
  lessons : List AgentLesson
deriving DecidableEq, Repr

/-- `MemoryService.addExperience(amount)`: add the XP and level up AT MOST
ONCE (the source guards the level-up with a single `if`, not a loop).
`Math.floor(x * 1.5)` on the integer thresholds is `x * 3 / 2`.  Returns the
new memory and the `leveledUp` flag. -/
def addExperience (m : AgentMemory) (amount : Nat) : AgentMemory × Bool :=
  let xp := m.currentXp + amount
  if m.nextLevelXp ≤ xp then
    let level := m.level + 1
    let major := level / 10 + 1
    let minor := level % 10
    ({ m with
        level := level
        currentXp := xp - m.nextLevelXp
        nextLevelXp := m.nextLevelXp * 3 / 2
        brainVersion := "v" ++ toString major ++ "." ++ toString minor },
      true)
  else
    ({ m with currentXp := xp }, false)

/-- `MemoryService.addLesson(insight, trendContext)`: build the new lesson
from the clock (`id = Date.now().toString()`), then either push it, or — when
the list already holds MORE than 50 entries — rebuild as
`[lessons[0], ...lessons.slice(-49), newLesson]`. -/
def addLesson (m : AgentMemory) (now : Nat) (insight : String)
    (tc : TrendContext) : AgentMemory :=
  let newLesson : AgentLesson := ⟨toString now, now, tc, insight⟩
  if 50 < m.lessons.length then
    { m with lessons :=
        m.lessons.take 1 ++ m.lessons.drop (m.lessons.length - 49) ++ [newLesson] }
  else
    { m with lessons := m.lessons ++ [newLesson] }

/-- One `Map.set` step of `mergeMemory`'s lesson map: an existing entry with
the same id is overwritten in place, otherwise the lesson is appended. -/
def mapSet (m : List AgentLesson) (x : AgentLesson) : List AgentLesson :=
  if m.any (fun y => y.id = x.id) then
    m.map (fun y => if y.id = x.id then x else y)
  else
    m ++ [x]

/-- `Array.from(lessonMap.values())` after `Map.set`-ing every lesson of the
list in order (local lessons first, then cloud lessons). -/
def lessonMapValues (l : List AgentLesson) : List AgentLesson :=
  l.foldl mapSet []

/-- Stable insertion into a timestamp-ascending list. -/
def insertByTs (x : AgentLesson) : List AgentLesson → List AgentLesson
  | [] => [x]
  | y :: ys => if y.timestamp ≤ x.timestamp then y :: insertByTs x ys else x :: y :: ys

/-- `.sort((a, b) => a.timestamp - b.timestamp)` — a stable
timestamp-ascending sort. -/
def sortByTs (l : List AgentLesson) : List AgentLesson :=
  l.foldl (fun acc x => insertByTs x acc) []

/-- `l.slice(-n)`: the last `n` elements (the whole list when shorter). -/
def sliceLastN (n : Nat) (l : List AgentLesson) : List AgentLesson :=
  l.drop (l.length - n)

/-- The client merge's 50-cap: when more than 50 lessons remain, keep element
0 (the origin) plus the last 49 (`[allLessons[0], ...allLessons.slice(-49)]`). -/
def capTrim (l : List AgentLesson) : List AgentLesson :=
  if 50 < l.length then l.take 1 ++ sliceLastN 49 l else l

/-- `MemoryService.mergeMemory(local, cloud)`: keep the higher level; the side
with the (weakly) higher level wins currentXp/nextLevelXp/brainVersion with
local preferred on ties; lessons are deduplicated by id via the map (cloud
overwrites on collision), sorted by timestamp and trimmed to the cap. -/
def mergeMemory (locmem cloud : AgentMemory) : AgentMemory :=
  let useLocal := cloud.level ≤ locmem.level
  { level := max locmem.level cloud.level
    currentXp := if useLocal then locmem.currentXp else cloud.currentXp
    nextLevelXp := if useLocal then locmem.nextLevelXp else cloud.nextLevelXp
    brainVersion := if useLocal then locmem.brainVersion else cloud.brainVersion
    lessons := capTrim (sortByTs (lessonMapValues (locmem.lessons ++ cloud.lessons))) }

/-- The lesson merge of `POST /api/memory/sync` (server.ts lines 483-495):
start from the stored (cloud) lessons, append each incoming lesson whose id
is not already stored, and keep the last 50 (`allLessons.slice(-50)`). -/
def serverMergeLessons (existing incoming : List AgentLesson) : List AgentLesson :=
  sliceLastN 50 (existing ++ incoming.filter (fun lsn => !(existing.any (fun e => e.id = lsn.id))))

/-- Keep-last deduplication by id: an element survives exactly when no later
element carries its id.  Written from the spec's words ("union ...
deduplicated by id (on collision, the later-merged value wins)") as the
comparison target for the refinement claims. -/
def dedupKeepLast : List AgentLesson → List AgentLesson
  | [] => []
  | x :: xs => if xs.any (fun y => y.id = x.id) then dedupKeepLast xs else x :: dedupKeepLast xs

/-- The lesson-merge function as the spec words it: union of the two lists
deduplicated by id with the later-merged value winning, sorted by timestamp
ascending, trimmed to the 50-entry cap keeping element 0 plus the most recent
49.  Comparison target for C4/C5; not a translation of the source. -/
def specMergeLessons (a b : List AgentLesson) : List AgentLesson :=
  capTrim (sortByTs (dedupKeepLast (a ++ b)))

/-- The consecutive-loss count as claim C9 words it: losses counted from the
head of the newest-first list of the most recent CLOSED trades.  Comparison
target; not a translation of the source (which scans trades of any outcome). -/
def specConsecutiveLosses (recent : List DbTrade) : Nat :=
  consecutiveLosses (recent.filter (fun t => t.outcome ≠ .OPEN))

/-- The last element of `l` whose id is `i` (`none` when the id is absent):
the value a JavaScript `Map` keyed by id holds after inserting `l` in order. -/
def lastById (l : List AgentLesson) (i : String) : Option AgentLesson :=
  match l with
  | [] => none
  | x :: xs =>
    match lastById xs i with
    | some y => some y
    | none => if x.id = i then some x else none

/-- The §3/§8 trade invariant: `closedAt` is non-null iff the outcome is not
OPEN. -/
def TradeInv (t : DbTrade) : Prop :=
  t.closed_at ≠ none ↔ t.outcome ≠ .OPEN

/-- The invariant over a whole trades table. -/
def StoreInv (l : List DbTrade) : Prop :=
  ∀ t ∈ l, TradeInv t

instance (t : DbTrade) : Decidable (TradeInv t) := by
  unfold TradeInv
  infer_instance

instance (l : List DbTrade) : Decidable (StoreInv l) := by
  unfold StoreInv
  exact List.decidableBAll _ l

/-! Concrete fixtures used by witnesses and counterexamples. -/

/-- A server state with empty tables. -/
def emptyState : ServerState := ⟨[], [], []⟩

/-- A closed LOSS row (entry 100, exit 90, pnl -10). -/
def mkClosedLoss (i : String) (ts : Nat) : DbTrade :=
  ⟨i, "BTCUSDT", .LONG, 100, some 90, none, none, 1, -10, -10, .LOSS, "Manual",
    none, none, "webhook", ts, some (ts + 1)⟩

/-- A closed WIN row (entry 100, exit 110, pnl 10). -/
def mkClosedWin (i : String) (ts : Nat) : DbTrade :=
  ⟨i, "BTCUSDT", .LONG, 100, some 110, none, none, 1, 10, 10, .WIN, "Manual",
    none, none, "webhook", ts, some (ts + 1)⟩

/-- An OPEN row. -/
def mkOpenTrade (i : String) (ts : Nat) : DbTrade :=
  ⟨i, "BTCUSDT", .LONG, 100, none, none, none, 1, 0, 0, .OPEN, "Manual",
    none, none, "webhook", ts, none⟩

/-- A manual-create body carrying an explicit WIN outcome but no exit price. -/
def c1BadInput : ManualTradeInput :=
  ⟨some "t1", "BTCUSDT", .LONG, 100, none, none, none, none, none, none,
    some .WIN, none, none, none, none⟩

/-- A correction row re-submitted for an already-stored id. -/
def c2NewRow : DbTrade :=
  ⟨"t1", "ETHUSDT", .SHORT, 200, none, some 90, some 120, 2, 0, 0, .OPEN,
    "Order Block", none, none, "webhook", 3000, none⟩

/-- The §8 scenario trade: LONG, entry 100, exit 110, leverage 1, no explicit
pnl/pnlPercent/outcome. -/
def scenarioTrade : WebhookTrade :=
  ⟨"t1", "BTCUSDT", .LONG, 100, some 110, none, none, some 1, none, none,
    none, none, none⟩

/-- The §8 scenario as a manual-create body. -/
def scenarioManual : ManualTradeInput :=
  ⟨some "t1", "BTCUSDT", .LONG, 100, some 110, none, none, some 1, none, none,
    none, none, none, none, none⟩

/-- Trades table whose newest row is OPEN, above three consecutive losses. -/
def c9MixedState : ServerState :=
  ⟨[mkOpenTrade "o1" 100, mkClosedLoss "l1" 90, mkClosedLoss "l2" 80,
    mkClosedLoss "l3" 70], [], []⟩

/-- Trades table with three consecutive losses at the head. -/
def c9LossState : ServerState :=
  ⟨[mkClosedLoss "l1" 90, mkClosedLoss "l2" 80, mkClosedLoss "l3" 70], [], []⟩

/-- A lesson literal. -/
def lsn (i : String) (ts : Nat) (s : String) : AgentLesson := ⟨i, ts, .CHOPPY, s⟩

/-- A memory with the numeric seed of `DEFAULT_MEMORY` (level 1, 0/100 XP). -/
def seedMemory (lessons : List AgentLesson) : AgentMemory :=
  ⟨1, 0, 100, "v1.0", lessons⟩

/-! Supporting lemmas: the lesson map of `mergeMemory` realizes keep-last
deduplication by id. -/

theorem mem_mapSet_of_ne {m : List AgentLesson} {x y : AgentLesson}
    (h : x.id ≠ y.id) : x ∈ mapSet m y ↔ x ∈ m := by
  unfold mapSet
  split
  · constructor
    · intro hx
      obtain ⟨z, hz, hzx⟩ := List.mem_map.mp hx
      by_cases hzy : z.id = y.id
      · rw [if_pos hzy] at hzx
        exact absurd (hzx ▸ rfl) h
      · rw [if_neg hzy] at hzx
        exact hzx ▸ hz
    · intro hx
      refine List.mem_map.mpr ⟨x, hx, ?_⟩
      rw [if_neg h]
  · rw [List.mem_append, List.mem_singleton]
    constructor
    · rintro (hx | rfl)
      · exact hx
      · exact absurd rfl h
    · exact Or.inl

theorem mem_mapSet_of_eq {m : List AgentLesson} {x y : AgentLesson}
    (h : x.id = y.id) : x ∈ mapSet m y ↔ x = y := by
  unfold mapSet
  split
  case isTrue hany =>
    constructor
    · intro hx
      obtain ⟨z, hz, hzx⟩ := List.mem_map.mp hx
      by_cases hzy : z.id = y.id
      · rw [if_pos hzy] at hzx
        exact hzx.symm
      · rw [if_neg hzy] at hzx
        exact absurd (hzx ▸ h) hzy
    · rintro rfl
      obtain ⟨z, hz, hzy⟩ := List.any_eq_true.mp hany
      refine List.mem_map.mpr ⟨z, hz, ?_⟩
      rw [if_pos (of_decide_eq_true hzy)]
  case isFalse hany =>
    rw [List.mem_append, List.mem_singleton]
    constructor
    · rintro (hx | rfl)
      · exact absurd (List.any_eq_true.mpr ⟨x, hx, decide_eq_true h⟩) hany
      · rfl
    · exact Or.inr

theorem lastById_cons (x : AgentLesson) (xs : List AgentLesson) (i : String) :
    lastById (x :: xs) i =
      (match lastById xs i with
        | some y => some y
        | none => if x.id = i then some x else none) := rfl

theorem mem_foldl_mapSet (l : List AgentLesson) :
    ∀ (m : List AgentLesson) (x : AgentLesson),
      x ∈ l.foldl mapSet m ↔
        lastById l x.id = some x ∨ (x ∈ m ∧ lastById l x.id = none) := by
  induction l with
  | nil => intro m x; simp [lastById]
  | cons y ys ih =>
    intro m x
    rw [List.foldl_cons, ih (mapSet m y) x, lastById_cons]
    cases hz : lastById ys x.id with
    | some z => simp
    | none =>
      by_cases hid : y.id = x.id
      · rw [if_pos hid, mem_mapSet_of_eq hid.symm]
        simp [eq_comm]
      · rw [if_neg hid, mem_mapSet_of_ne (fun he => hid he.symm)]

theorem mem_lessonMapValues {l : List AgentLesson} {x : AgentLesson} :
    x ∈ lessonMapValues l ↔ lastById l x.id = some x := by
  unfold lessonMapValues
  rw [mem_foldl_mapSet]
  simp

theorem lastById_isSome_eq_any (l : List AgentLesson) (i : String) :
    (lastById l i).isSome = l.any (fun y => y.id = i) := by
  induction l with
  | nil => rfl
  | cons x xs ih =>
    rw [lastById_cons, List.any_cons]
    cases hz : lastById xs i with
    | some z =>
      have h1 : xs.any (fun y => decide (y.id = i)) = true := by
        rw [← ih, hz]; rfl
      simp [h1]
    | none =>
      rw [hz] at ih
      by_cases hid : x.id = i <;> simp [hid, ← ih]

theorem dedupKeepLast_cons (y : AgentLesson) (ys : List AgentLesson) :
    dedupKeepLast (y :: ys) =
      (if ys.any (fun z => z.id = y.id) then dedupKeepLast ys
        else y :: dedupKeepLast ys) := rfl

theorem mem_dedupKeepLast {l : List AgentLesson} {x : AgentLesson} :
    x ∈ dedupKeepLast l ↔ lastById l x.id = some x := by
  induction l with
  | nil => simp [dedupKeepLast, lastById]
  | cons y ys ih =>
    rw [dedupKeepLast_cons, lastById_cons]
    by_cases hany : ys.any (fun z => z.id = y.id) = true
    · rw [if_pos hany]
      cases hz : lastById ys x.id with
      | some z => rw [ih, hz]
      | none =>
        by_cases hid : y.id = x.id
        · exfalso
          have h1 : (lastById ys y.id).isSome = true := by
            rw [lastById_isSome_eq_any]; exact hany
          rw [hid, hz] at h1
          exact Bool.false_ne_true h1
        · rw [ih, hz, if_neg hid]
    · rw [if_neg hany]
      have hnone : lastById ys y.id = none := by
        have h2 := lastById_isSome_eq_any ys y.id
        rw [Bool.eq_false_iff.mpr hany] at h2
        exact Option.not_isSome_iff_eq_none.mp (by rw [h2]; exact Bool.false_ne_true)
      rw [List.mem_cons, ih]
      cases hz : lastById ys x.id with
      | some z =>
        constructor
        · rintro (rfl | h)
          · rw [hz] at hnone; exact absurd hnone (by simp)
          · exact h
        · exact Or.inr
      | none =>
        by_cases hid : y.id = x.id
        · rw [if_pos hid]
          simp [eq_comm]
        · rw [if_neg hid]
          constructor
          · rintro (rfl | h)
            · exact absurd rfl hid
            · exact absurd h (by simp)
          · intro h; exact absurd h (by simp)

theorem dedupKeepLast_sublist (l : List AgentLesson) :
    List.Sublist (dedupKeepLast l) l := by
  induction l with
  | nil => exact List.Sublist.refl _
  | cons y ys ih =>
    rw [dedupKeepLast_cons]
    by_cases hany : ys.any (fun z => z.id = y.id) = true
    · rw [if_pos hany]
      exact List.Sublist.cons y ih
    · rw [if_neg hany]
      exact List.Sublist.cons₂ y ih

theorem pairwise_ids_dedupKeepLast (l : List AgentLesson) :
    (dedupKeepLast l).Pairwise (fun a b => a.id ≠ b.id) := by
  induction l with
  | nil => exact List.Pairwise.nil
  | cons y ys ih =>
    rw [dedupKeepLast_cons]
    by_cases hany : ys.any (fun z => z.id = y.id) = true
    · rw [if_pos hany]; exact ih
    · rw [if_neg hany]
      refine List.Pairwise.cons (fun z hz he => ?_) ih
      have hzys : z ∈ ys := (dedupKeepLast_sublist ys).subset hz
      have h2 := List.any_eq_false.mp (Bool.eq_false_iff.mpr hany) z hzys
      simp only [decide_eq_true_eq] at h2
      exact h2 he.symm

theorem pairwise_ids_mapSet {m : List AgentLesson} (x : AgentLesson)
    (h : m.Pairwise (fun a b => a.id ≠ b.id)) :
    (mapSet m x).Pairwise (fun a b => a.id ≠ b.id) := by
  unfold mapSet
  split
  case isTrue hany =>
    have hid : ∀ z : AgentLesson, (if z.id = x.id then x else z).id = z.id := by
      intro z
      by_cases hz : z.id = x.id
      · rw [if_pos hz, hz]
      · rw [if_neg hz]
    rw [List.pairwise_map]
    exact h.imp (fun {a b} hab => by rw [hid a, hid b]; exact hab)
  case isFalse hany =>
    rw [List.pairwise_append]
    refine ⟨h, List.pairwise_singleton _ _, fun a ha b hb => ?_⟩
    rw [List.mem_singleton] at hb
    subst hb
    exact fun he => hany (List.any_eq_true.mpr ⟨a, ha, decide_eq_true he⟩)

theorem pairwise_ids_foldl_mapSet (l : List AgentLesson) :
    ∀ m : List AgentLesson, m.Pairwise (fun a b => a.id ≠ b.id) →
      (l.foldl mapSet m).Pairwise (fun a b => a.id ≠ b.id) := by
  induction l with
  | nil => intro m h; exact h
  | cons y ys ih =>
    intro m h
    rw [List.foldl_cons]
    exact ih _ (pairwise_ids_mapSet y h)

theorem pairwise_ids_lessonMapValues (l : List AgentLesson) :
    (lessonMapValues l).Pairwise (fun a b => a.id ≠ b.id) :=
  pairwise_ids_foldl_mapSet l [] List.Pairwise.nil

theorem nodup_of_pairwise_ids {l : List AgentLesson}
    (h : l.Pairwise (fun a b => a.id ≠ b.id)) : l.Nodup :=
  h.imp (fun {a b} hab he => hab (by rw [he]))

theorem lessonMapValues_perm_dedupKeepLast (l : List AgentLesson) :
    (lessonMapValues l).Perm (dedupKeepLast l) := by
  refine (List.perm_ext_iff_of_nodup
    (nodup_of_pairwise_ids (pairwise_ids_lessonMapValues l))
    (nodup_of_pairwise_ids (pairwise_ids_dedupKeepLast l))).mpr (fun x => ?_)
  rw [mem_lessonMapValues, mem_dedupKeepLast]

/-! Supporting lemmas: the timestamp sort. -/

theorem insertByTs_perm (x : AgentLesson) (l : List AgentLesson) :
    (insertByTs x l).Perm (x :: l) := by
  induction l with
  | nil => exact List.Perm.refl _
  | cons y ys ih =>
    show (if y.timestamp ≤ x.timestamp then y :: insertByTs x ys else x :: y :: ys).Perm _
    by_cases hc : y.timestamp ≤ x.timestamp
    · rw [if_pos hc]
      exact (ih.cons y).trans (List.Perm.swap x y ys)
    · rw [if_neg hc]

theorem foldl_insertByTs_perm (l : List AgentLesson) :
    ∀ acc : List AgentLesson,
      (l.foldl (fun acc x => insertByTs x acc) acc).Perm (acc ++ l) := by
  induction l with
  | nil => intro acc; simp
  | cons y ys ih =>
    intro acc
    rw [List.foldl_cons]
    refine (ih (insertByTs y acc)).trans ?_
    refine (((insertByTs_perm y acc).append_right ys).trans ?_)
    exact List.perm_middle.symm

theorem sortByTs_perm (l : List AgentLesson) : (sortByTs l).Perm l := by
  have h := foldl_insertByTs_perm l []
  rw [List.nil_append] at h
  exact h

theorem insertByTs_sorted (x : AgentLesson) {l : List AgentLesson}
    (h : l.Pairwise (fun a b => a.timestamp ≤ b.timestamp)) :
    (insertByTs x l).Pairwise (fun a b => a.timestamp ≤ b.timestamp) := by
  induction l with
  | nil => exact List.pairwise_singleton _ _
  | cons y ys ih =>
    obtain ⟨hy, hys⟩ := List.pairwise_cons.mp h
    show (if y.timestamp ≤ x.timestamp then y :: insertByTs x ys
        else x :: y :: ys).Pairwise _
    by_cases hc : y.timestamp ≤ x.timestamp
    · rw [if_pos hc]
      refine List.pairwise_cons.mpr ⟨fun z hz => ?_, ih hys⟩
      rcases List.mem_cons.mp ((insertByTs_perm x ys).mem_iff.mp hz) with rfl | hzys
      · exact hc
      · exact hy z hzys
    · rw [if_neg hc]
      refine List.pairwise_cons.mpr ⟨fun z hz => ?_, h⟩
      rcases List.mem_cons.mp hz with rfl | hzys
      · exact Nat.le_of_not_le hc
      · exact Nat.le_trans (Nat.le_of_not_le hc) (hy z hzys)

theorem sortByTs_sorted (l : List AgentLesson) :
    (sortByTs l).Pairwise (fun a b => a.timestamp ≤ b.timestamp) := by
  have haux : ∀ acc : List AgentLesson,
      acc.Pairwise (fun a b => a.timestamp ≤ b.timestamp) →
      (l.foldl (fun acc x => insertByTs x acc) acc).Pairwise
        (fun a b => a.timestamp ≤ b.timestamp) := by
    induction l with
    | nil => intro acc h; exact h
    | cons y ys ih =>
      intro acc h
      rw [List.foldl_cons]
      exact ih _ (insertByTs_sorted y h)
  exact haux [] List.Pairwise.nil

theorem eq_of_perm_of_sorted_ts {l₁ l₂ : List AgentLesson}
    (hp : l₁.Perm l₂)
    (hs₁ : l₁.Pairwise (fun a b => a.timestamp ≤ b.timestamp))
    (hs₂ : l₂.Pairwise (fun a b => a.timestamp ≤ b.timestamp))
    (hinj : l₁.Pairwise (fun a b => a.timestamp = b.timestamp → a = b))
    (hnd : l₁.Nodup) : l₁ = l₂ := by
  have hsym : ∀ {x y : AgentLesson},
      (x.timestamp = y.timestamp → x = y) → (y.timestamp = x.timestamp → y = x) :=
    fun h he => (h he.symm).symm
  have hinj₂ : l₂.Pairwise (fun a b => a.timestamp = b.timestamp → a = b) :=
    (hp.pairwise_iff hsym).mp hinj
  have hnd₂ : l₂.Nodup := hp.nodup_iff.mp hnd
  have hlt₁ : l₁.Pairwise (fun a b => a.timestamp < b.timestamp) :=
    ((hs₁.and hinj).and hnd).imp
      (fun {a b} hab => Nat.lt_of_le_of_ne hab.1.1
        (fun he => hab.2 (hab.1.2 he)))
  have hlt₂ : l₂.Pairwise (fun a b => a.timestamp < b.timestamp) :=
    ((hs₂.and hinj₂).and hnd₂).imp
      (fun {a b} hab => Nat.lt_of_le_of_ne hab.1.1
        (fun he => hab.2 (hab.1.2 he)))
  have : IsAntisymm AgentLesson (fun a b => a.timestamp < b.timestamp) :=
    ⟨fun a b h1 h2 => absurd h2 (Nat.not_lt.mpr (Nat.le_of_lt h1))⟩
  exact List.eq_of_perm_of_sorted hp hlt₁ hlt₂

/-! Supporting lemmas: commutativity of the deduplicated union when entries
sharing an id agree across the two replicas. -/

theorem lastById_mem {l : List AgentLesson} {i : String} {z : AgentLesson}
    (h : lastById l i = some z) : z ∈ l ∧ z.id = i := by
  induction l with
  | nil => exact absurd h (by simp [lastById])
  | cons x xs ih =>
    rw [lastById_cons] at h
    cases hz : lastById xs i with
    | some y =>
      rw [hz] at h
      obtain ⟨hm, hi⟩ := ih (hz.trans h)
      exact ⟨List.mem_cons_of_mem x hm, hi⟩
    | none =>
      rw [hz] at h
      by_cases hid : x.id = i
      · rw [if_pos hid] at h
        injection h with h
        subst h
        exact ⟨List.mem_cons_self _ _, hid⟩
      · rw [if_neg hid] at h
        exact absurd h (by simp)

theorem lastById_append (u v : List AgentLesson) (i : String) :
    lastById (u ++ v) i = (lastById v i).or (lastById u i) := by
  induction u with
  | nil =>
    rw [List.nil_append]
    show lastById v i = (lastById v i).or none
    rw [Option.or_none]
  | cons x u ih =>
    rw [List.cons_append, lastById_cons, ih, lastById_cons]
    cases hv : lastById v i with
    | some z => rfl
    | none =>
      rw [Option.none_or, Option.none_or]

theorem lastById_append_comm {a b : List AgentLesson}
    (h1 : ∀ x ∈ a, ∀ y ∈ b, x.id = y.id → x = y) (i : String) :
    lastById (a ++ b) i = lastById (b ++ a) i := by
  rw [lastById_append, lastById_append]
  cases hb : lastById b i with
  | none => rw [Option.none_or, Option.or_none]
  | some zb =>
    cases ha : lastById a i with
    | none => rfl
    | some za =>
      obtain ⟨hma, hia⟩ := lastById_mem ha
      obtain ⟨hmb, hib⟩ := lastById_mem hb
      rw [h1 za hma zb hmb (hia.trans hib.symm)]

theorem dedupKeepLast_append_perm {a b : List AgentLesson}
    (h1 : ∀ x ∈ a, ∀ y ∈ b, x.id = y.id → x = y) :
    (dedupKeepLast (a ++ b)).Perm (dedupKeepLast (b ++ a)) := by
  refine (List.perm_ext_iff_of_nodup
    (nodup_of_pairwise_ids (pairwise_ids_dedupKeepLast _))
    (nodup_of_pairwise_ids (pairwise_ids_dedupKeepLast _))).mpr (fun x => ?_)
  rw [mem_dedupKeepLast, mem_dedupKeepLast, lastById_append_comm h1]

/-! Supporting lemmas: the trade store. -/

theorem tradeInv_conflictUpdate {old t : DbTrade} (h : TradeInv old) :
    TradeInv (conflictUpdate old t) := h

theorem storeInv_upsert {l : List DbTrade} {t : DbTrade}
    (h : StoreInv l) (ht : TradeInv t) : StoreInv (upsertTrade l t) := by
  unfold upsertTrade
  split
  · intro x hx
    obtain ⟨old, hold, rfl⟩ := List.mem_map.mp hx
    by_cases hid : old.id = t.id
    · rw [if_pos hid]
      exact tradeInv_conflictUpdate (h old hold)
    · rw [if_neg hid]
      exact h old hold
  · intro x hx
    rcases List.mem_append.mp hx with hxl | hxt
    · exact h x hxl
    · rw [List.mem_singleton] at hxt
      exact hxt ▸ ht

theorem findById_any {l : List DbTrade} {i : String} {old : DbTrade}
    (h : findById l i = some old) : l.any (fun r => r.id = i) = true := by
  have hmem := List.mem_of_find?_eq_some h
  have hpred := List.find?_some h
  exact List.any_eq_true.mpr ⟨old, hmem, hpred⟩

theorem findById_none_any {l : List DbTrade} {i : String}
    (h : findById l i = none) : l.any (fun r => r.id = i) = false := by
  rw [List.any_eq_false]
  intro x hx
  exact List.find?_eq_none.mp h x hx

theorem find?_map_conflictUpdate {l : List DbTrade} {t old : DbTrade}
    (h : l.find? (fun r => r.id = t.id) = some old) :
    (l.map (fun x => if x.id = t.id then conflictUpdate x t else x)).find?
      (fun r => r.id = t.id) = some (conflictUpdate old t) := by
  induction l with
  | nil => exact absurd h (by simp)
  | cons x xs ih =>
    by_cases hx : x.id = t.id
    · rw [List.find?_cons_of_pos _ (by exact decide_eq_true hx)] at h
      injection h with h
      subst h
      rw [List.map_cons, if_pos hx]
      exact List.find?_cons_of_pos _ (decide_eq_true hx)
    · rw [List.find?_cons_of_neg _ (by simpa using hx)] at h
      rw [List.map_cons, if_neg hx]
      rw [List.find?_cons_of_neg _ (by simpa using hx)]
      exact ih h

theorem handleWebhookTrade_none (cfg psec : String) (pty : PayloadType)
    (st : ServerState) (now : Nat) (uuid u1 u2 u3 : String) :
    handleWebhookTrade cfg ⟨psec, pty, none⟩ st now uuid u1 u2 u3 =
      if psec ≠ cfg then (st, 401, []) else (st, 400, []) := rfl

theorem handleWebhookTrade_some (cfg psec : String) (pty : PayloadType)
    (t : WebhookTrade) (st : ServerState) (now : Nat) (uuid u1 u2 u3 : String) :
    handleWebhookTrade cfg ⟨psec, pty, some t⟩ st now uuid u1 u2 u3 =
      if psec ≠ cfg then (st, 401, [])
      else handleTradeCore pty t st now uuid u1 u2 u3 := by
  unfold handleWebhookTrade
  by_cases hsec : psec ≠ cfg
  · rw [if_pos hsec]
  · rw [if_neg hsec]

theorem tradeInv_openRecord (t : WebhookTrade) (now : Nat) (uuid : String) :
    TradeInv (openRecord t now uuid) := by
  simp [TradeInv, openRecord]

theorem tradeInv_closeFreshRecord (t : WebhookTrade) (now : Nat) (uuid : String) :
    TradeInv (closeFreshRecord t now uuid) := by
  have houtcome : (closeFreshRecord t now uuid).outcome ≠ Outcome.OPEN := by
    cases ho : t.outcome with
    | some o =>
      simp only [closeFreshRecord, ho]
      cases o <;> simp [ClosedOutcome.toOutcome]
    | none =>
      simp only [closeFreshRecord, ho]
      split
      · simp
      · split <;> simp
  have hclosed : (closeFreshRecord t now uuid).closed_at = some now := rfl
  rw [TradeInv, hclosed]
  exact ⟨fun _ => houtcome, fun _ => by simp⟩

theorem tradeInv_manualRecord (input : ManualTradeInput) (now : Nat) (uuid : String)
    (hcond : ∀ o, input.outcome = some o →
      (o ≠ Outcome.OPEN ↔ exitTruthy input.exitPrice = true)) :
    TradeInv (manualRecord input now uuid) := by
  unfold TradeInv manualRecord
  cases hout : input.outcome with
  | some o =>
    have hiff := hcond o hout
    by_cases he : exitTruthy input.exitPrice = true
    · simp only [hout, he, if_true, if_pos he]
      exact ⟨fun _ => hiff.mpr he, fun _ => by simp⟩
    · simp only [hout, if_neg he]
      constructor
      · intro hne
        exact absurd rfl hne
      · intro hne
        exact absurd (hiff.mp hne) he
  | none =>
    by_cases he : exitTruthy input.exitPrice = true
    · simp [hout, he]
    · simp [hout, he]

/-- C1: the claim's invariant `closedAt ≠ null ⇔ outcome ≠ OPEN` does NOT
hold for every mutation (see the counterexample); amended version: the
webhook trade handler preserves it unconditionally, the manual create
preserves it exactly when the caller's outcome field (if any) is non-OPEN
precisely when an exit price is supplied, and the manual patch preserves it
whenever its outcome field is absent or non-OPEN. -/
theorem c1_closedAt_iff_outcome_amended :
    (∀ (cfg : String) (p : TradePayload) (st : ServerState) (now : Nat)
        (uuid u1 u2 u3 : String), StoreInv st.trades →
        StoreInv (handleWebhookTrade cfg p st now uuid u1 u2 u3).1.trades) ∧
    (∀ (input : ManualTradeInput) (st : ServerState) (now : Nat)
        (uuid u1 u2 u3 : String), StoreInv st.trades →
        (∀ o, input.outcome = some o →
          (o ≠ Outcome.OPEN ↔ exitTruthy input.exitPrice = true)) →
        StoreInv (createTradeManual input st now uuid u1 u2 u3).1.trades) ∧
    (∀ (tid : String) (u : PatchInput) (st : ServerState) (now : Nat),
        StoreInv st.trades →
        (∀ o, u.outcome = some o → o ≠ Outcome.OPEN) →
        StoreInv (patchTradeManual tid u st now).1.trades) := by
  refine ⟨?_, ?_, ?_⟩
  · intro cfg p st now uuid u1 u2 u3 hinv
    obtain ⟨psec, pty, ptr⟩ := p
    cases ptr with
    | none =>
      rw [handleWebhookTrade_none]
      split <;> exact hinv
    | some t =>
      rw [handleWebhookTrade_some]
      by_cases hsec : psec ≠ cfg
      · rw [if_pos hsec]
        exact hinv
      · rw [if_neg hsec]
        cases pty with
        | TRADE_OPEN =>
          exact storeInv_upsert hinv (tradeInv_openRecord t now uuid)
        | TRADE_CLOSE =>
          simp only [handleTradeCore]
          cases hfind : findById st.trades t.id with
          | some ex => exact hinv
          | none => exact storeInv_upsert hinv (tradeInv_closeFreshRecord t now uuid)
        | TRADE_UPDATE => exact hinv
        | SIGNAL_NEW => exact hinv
        | SIGNAL_UPDATE => exact hinv
  · intro input st now uuid u1 u2 u3 hinv hcond
    have hrec := tradeInv_manualRecord input now uuid hcond
    simp only [createTradeManual]
    by_cases hr : (manualRecord input now uuid).outcome ≠ Outcome.OPEN
    · rw [if_pos hr]
      exact storeInv_upsert hinv hrec
    · rw [if_neg hr]
      exact storeInv_upsert hinv hrec
  · intro tid u st now hinv hcond
    unfold patchTradeManual
    cases hfind : findById st.trades tid with
    | none => exact hinv
    | some ex =>
      intro x hx
      obtain ⟨old, hold, rfl⟩ := List.mem_map.mp hx
      by_cases hid : old.id = tid
      · rw [if_pos hid]
        cases hu : u.outcome with
        | some o =>
          have hne := hcond o hu
          have hbool : (!(o == Outcome.OPEN)) = true := by
            cases o <;> simp_all
          simp only [hu, hbool, if_true, Option.getD_some]
          exact ⟨fun _ => hne, fun _ => by simp⟩
        | none =>
          have hex := hinv ex (List.mem_of_find?_eq_some hfind)
          simp only [hu, Bool.false_eq_true, if_false, Option.getD_none]
          exact hex
      · rw [if_neg hid]
        exact hinv old hold

/-- C1 counterexample: `POST /api/trades` with body outcome WIN and no
exitPrice stores a record with outcome WIN and `closed_at = null`, violating
the claimed invariant. -/
theorem c1_counterexample :
    ¬ StoreInv (createTradeManual c1BadInput emptyState 5 "u" "a" "b" "c").1.trades := by
  intro h
  have h2 := h (manualRecord c1BadInput 5 "u") (by decide)
  rw [TradeInv] at h2
  revert h2
  decide

/-- C1 witness: the amended theorem applied at concrete inputs. -/
theorem c1_witness :
    StoreInv (handleWebhookTrade "s" ⟨"s", .TRADE_CLOSE, some scenarioTrade⟩
      emptyState 5 "u" "a" "b" "c").1.trades ∧
    StoreInv (createTradeManual scenarioManual emptyState 5 "u" "a" "b" "c").1.trades ∧
    StoreInv (patchTradeManual "t1" ⟨none, some 5, none, some .WIN, none, none⟩
      ⟨[mkOpenTrade "t1" 1], [], []⟩ 9).1.trades := by
  refine ⟨c1_closedAt_iff_outcome_amended.1 _ _ _ _ _ _ _ _ (by decide),
    c1_closedAt_iff_outcome_amended.2.1 _ _ _ _ _ _ _ (by decide) ?_,
    c1_closedAt_iff_outcome_amended.2.2 _ _ _ _ (by decide) ?_⟩
  · intro o ho
    simp [scenarioManual] at ho
  · intro o ho
    injection ho with ho
    subst ho
    decide

/-- C2: re-submitting a stored id through the bare upsert overwrites exactly
pair, direction, entry_price, stop_loss, take_profit, leverage and strategy;
outcome, exit_price, pnl, pnl_percent, notes, checklist_grade and closed_at
(as well as id, source and timestamp) are kept from the stored row — in
particular a closed trade's outcome is never reset to OPEN. -/
theorem c2_upsert_overwrites_only_correction_fields
    (st : List DbTrade) (t old : DbTrade) (h : findById st t.id = some old) :
    findById (upsertTrade st t) t.id = some
      { old with
        pair := t.pair
        direction := t.direction
        entry_price := t.entry_price
        stop_loss := t.stop_loss
        take_profit := t.take_profit
        leverage := t.leverage
        strategy := t.strategy } := by
  have hany := findById_any h
  unfold upsertTrade findById
  rw [hany, if_pos rfl]
  exact find?_map_conflictUpdate h

/-- C2 witness: upserting a row for the stored id of a closed WIN trade. -/
theorem c2_witness :
    findById [mkClosedWin "t1" 1] c2NewRow.id = some (mkClosedWin "t1" 1) ∧
    findById (upsertTrade [mkClosedWin "t1" 1] c2NewRow) c2NewRow.id = some
      { mkClosedWin "t1" 1 with
        pair := c2NewRow.pair
        direction := c2NewRow.direction
        entry_price := c2NewRow.entry_price
        stop_loss := c2NewRow.stop_loss
        take_profit := c2NewRow.take_profit
        leverage := c2NewRow.leverage
        strategy := c2NewRow.strategy } :=
  ⟨by decide,
    c2_upsert_overwrites_only_correction_fields [mkClosedWin "t1" 1] c2NewRow
      (mkClosedWin "t1" 1) (by decide)⟩

/-- C6: `addExperience` is guarded by a single `if`, not the claimed loop: the
475-XP grant from the seed state (thresholds 100, 150, 225) levels up once to
level 2 and leaves `currentXp = 375 ≥ nextLevelXp = 150`, while three calls
granting the same total reach level 4 — the two end states differ. -/
theorem c6_addExperience_levels_at_most_once :
    (addExperience (seedMemory []) 475).1.level = 2 ∧
    (addExperience (seedMemory []) 475).1.currentXp = 375 ∧
    (addExperience (seedMemory []) 475).1.nextLevelXp = 150 ∧
    (addExperience (seedMemory []) 475).1.nextLevelXp ≤
      (addExperience (seedMemory []) 475).1.currentXp ∧
    (addExperience (addExperience (addExperience
      (seedMemory []) 100).1 150).1 225).1.level = 4 ∧
    (addExperience (seedMemory []) 475).1 ≠
      (addExperience (addExperience (addExperience
        (seedMemory []) 100).1 150).1 225).1 := by decide

/-- C7 amended: after `addLesson` the lessons list has length `old + 1` when
the old length is at most 50 and length 51 otherwise (so the cap is 51, not
50, because the guard tests the length before appending), and the first-ever
lesson at index 0 is always retained. -/
theorem c7_addLesson_cap_amended (m : AgentMemory) (now : Nat) (insight : String)
    (tc : TrendContext) (h : m.lessons ≠ []) :
    (addLesson m now insight tc).lessons.length =
      (if 50 < m.lessons.length then 51 else m.lessons.length + 1) ∧
    (addLesson m now insight tc).lessons.head? = m.lessons.head? := by
  constructor
  · unfold addLesson
    by_cases hlen : 50 < m.lessons.length
    · rw [if_pos hlen]
      show (m.lessons.take 1 ++ m.lessons.drop (m.lessons.length - 49) ++
        [(⟨toString now, now, tc, insight⟩ : AgentLesson)]).length = _
      rw [if_pos hlen, List.length_append, List.length_append,
        List.length_take, List.length_drop, List.length_singleton]
      omega
    · rw [if_neg hlen]
      show (m.lessons ++ [(⟨toString now, now, tc, insight⟩ : AgentLesson)]).length = _
      rw [if_neg hlen, List.length_append, List.length_singleton]
  · unfold addLesson
    by_cases hlen : 50 < m.lessons.length
    · rw [if_pos hlen]
      show (m.lessons.take 1 ++ m.lessons.drop (m.lessons.length - 49) ++
        [(⟨toString now, now, tc, insight⟩ : AgentLesson)]).head? = m.lessons.head?
      cases hm : m.lessons with
      | nil => exact absurd hm h
      | cons a as => simp
    · rw [if_neg hlen]
      show (m.lessons ++ [(⟨toString now, now, tc, insight⟩ : AgentLesson)]).head? = m.lessons.head?
      cases hm : m.lessons with
      | nil => exact absurd hm h
      | cons a as => simp

/-- C7 counterexample: adding a lesson to a 50-entry list yields 51 entries,
refuting the claimed 50-entry cap (the guard fires only above 50). -/
theorem c7_counterexample :
    ¬ (addLesson (seedMemory (List.replicate 50 (lsn "x" 1 "A"))) 7 "i" .UP).lessons.length ≤ 50 := by
  decide

/-- C7 witness: the amended cap applied to a singleton lessons list. -/
theorem c7_witness :
    (seedMemory [lsn "x" 1 "A"]).lessons ≠ [] ∧
    (addLesson (seedMemory [lsn "x" 1 "A"]) 7 "i" .UP).lessons.length =
      (if 50 < (seedMemory [lsn "x" 1 "A"]).lessons.length then 51
        else (seedMemory [lsn "x" 1 "A"]).lessons.length + 1) ∧
    (addLesson (seedMemory [lsn "x" 1 "A"]) 7 "i" .UP).lessons.head? =
      (seedMemory [lsn "x" 1 "A"]).lessons.head? :=
  ⟨by decide,
    (c7_addLesson_cap_amended (seedMemory [lsn "x" 1 "A"]) 7 "i" .UP (by decide)).1,
    (c7_addLesson_cap_amended (seedMemory [lsn "x" 1 "A"]) 7 "i" .UP (by decide)).2⟩

/-- C8: a webhook call (trade or signal) whose secret differs from the
configured secret is answered 401 with the state unchanged and nothing
broadcast. -/
theorem c8_bad_secret_rejected (cfg : String) (p : TradePayload) (q : SignalPayload)
    (st st2 : ServerState) (now now2 : Nat) (uuid u1 u2 u3 uuid2 : String)
    (hp : p.secret ≠ cfg) (hq : q.secret ≠ cfg) :
    handleWebhookTrade cfg p st now uuid u1 u2 u3 = (st, 401, []) ∧
    handleWebhookSignal cfg q st2 now2 uuid2 = (st2, 401, []) := by
  constructor
  · unfold handleWebhookTrade
    rw [if_pos hp]
  · unfold handleWebhookSignal
    rw [if_pos hq]

/-- C8 witness: a trade and a signal webhook with a wrong secret. -/
theorem c8_witness :
    ("wrong" : String) ≠ "yota-dev-secret" ∧
    handleWebhookTrade "yota-dev-secret" ⟨"wrong", .TRADE_OPEN, some scenarioTrade⟩
      emptyState 5 "u" "a" "b" "c" = (emptyState, 401, []) ∧
    handleWebhookSignal "yota-dev-secret" ⟨"wrong", .SIGNAL_NEW, none⟩
      emptyState 5 "u" = (emptyState, 401, []) :=
  ⟨by decide,
    (c8_bad_secret_rejected "yota-dev-secret" ⟨"wrong", .TRADE_OPEN, some scenarioTrade⟩
      ⟨"wrong", .SIGNAL_NEW, none⟩ emptyState emptyState 5 5 "u" "a" "b" "c" "u"
      (by decide) (by decide)).1,
    (c8_bad_secret_rejected "yota-dev-secret" ⟨"wrong", .TRADE_OPEN, some scenarioTrade⟩
      ⟨"wrong", .SIGNAL_NEW, none⟩ emptyState emptyState 5 5 "u" "a" "b" "c" "u"
      (by decide) (by decide)).2⟩

/-- C10 amended: a validated webhook TRADE_OPEN whose id is not yet stored
appends a row with outcome OPEN, pnl 0, pnl_percent 0, exit_price null and
closed_at null, regardless of the payload's exitPrice/pnl/pnlPercent/outcome;
for an already-stored id the upsert leaves those fields untouched (see the
counterexample and C2). -/
theorem c10_webhook_open_fresh_id (cfg psec : String) (st : ServerState)
    (now : Nat) (uuid u1 u2 u3 : String) (t : WebhookTrade)
    (hs : psec = cfg)
    (hfresh : st.trades.any (fun r => r.id = (openRecord t now uuid).id) = false) :
    (handleWebhookTrade cfg ⟨psec, .TRADE_OPEN, some t⟩ st now uuid u1 u2 u3).1.trades
      = st.trades ++ [openRecord t now uuid] ∧
    (openRecord t now uuid).outcome = .OPEN ∧
    (openRecord t now uuid).pnl = 0 ∧
    (openRecord t now uuid).pnl_percent = 0 ∧
    (openRecord t now uuid).exit_price = none ∧
    (openRecord t now uuid).closed_at = none := by
  refine ⟨?_, rfl, rfl, rfl, rfl, rfl⟩
  rw [handleWebhookTrade_some, if_neg (fun hne => hne hs)]
  show upsertTrade st.trades (openRecord t now uuid) = _
  unfold upsertTrade
  rw [hfresh]
  simp

/-- C10 counterexample: a TRADE_OPEN webhook for an id already stored as a
closed WIN leaves the stored outcome, closed_at and pnl untouched — the
stored record does not become OPEN/0/null. -/
theorem c10_counterexample :
    (handleWebhookTrade "yota-dev-secret"
      ⟨"yota-dev-secret", .TRADE_OPEN,
        some ⟨"t1", "ETHUSDT", .SHORT, 200, some 210, none, none, none,
          some 5, some 5, some .LOSS, none, none⟩⟩
      ⟨[mkClosedWin "t1" 1], [], []⟩ 5 "u" "a" "b" "c").1.trades.map
        (fun r => (r.outcome, r.closed_at, r.pnl)) = [(.WIN, some 2, 10)] := by
  decide

/-- C10 witness: the amended theorem at the §8 scenario payload on an empty
store. -/
theorem c10_witness :
    (handleWebhookTrade "yota-dev-secret"
      ⟨"yota-dev-secret", .TRADE_OPEN, some scenarioTrade⟩
      emptyState 5 "u" "a" "b" "c").1.trades
      = emptyState.trades ++ [openRecord scenarioTrade 5 "u"] ∧
    (openRecord scenarioTrade 5 "u").outcome = .OPEN ∧
    (openRecord scenarioTrade 5 "u").pnl = 0 ∧
    (openRecord scenarioTrade 5 "u").pnl_percent = 0 ∧
    (openRecord scenarioTrade 5 "u").exit_price = none ∧
    (openRecord scenarioTrade 5 "u").closed_at = none :=
  c10_webhook_open_fresh_id "yota-dev-secret" "yota-dev-secret" emptyState 5
    "u" "a" "b" "c" scenarioTrade rfl (by decide)

/-- C3 amended: on the webhook TRADE_CLOSE path for an unknown id, omitted
pnl, pnlPercent and outcome are derived server-side:
`pnl = (exit - entry) * (LONG ? 1 : -1) * leverage`,
`pnlPercent = pnl / entry * 100`, and the outcome follows the sign of pnl;
the stored row is the synthesized closed record.  (The manual POST path does
NOT share this derivation — see the counterexample — and the known-id close
path binds a partial object to the full UPDATE statement and fails, storing
nothing.) -/
theorem c3_close_unknown_id_derives_fields (cfg psec : String) (st : ServerState)
    (now : Nat) (uuid u1 u2 u3 : String) (t : WebhookTrade) (ex : ℚ)
    (hs : psec = cfg) (hid : t.id ≠ "")
    (hfresh : findById st.trades t.id = none)
    (hpnl : t.pnl = none) (hpct : t.pnlPercent = none) (hout : t.outcome = none)
    (hexit : t.exitPrice = some ex) :
    (handleWebhookTrade cfg ⟨psec, .TRADE_CLOSE, some t⟩ st now uuid u1 u2 u3).1.trades
      = st.trades ++ [closeFreshRecord t now uuid] ∧
    (closeFreshRecord t now uuid).pnl
      = (ex - t.entryPrice) * dirSign t.direction * jsNumOr t.leverage 1 ∧
    (closeFreshRecord t now uuid).pnl_percent
      = ((ex - t.entryPrice) * dirSign t.direction * jsNumOr t.leverage 1)
          / t.entryPrice * 100 ∧
    (closeFreshRecord t now uuid).outcome
      = (if 0 < (ex - t.entryPrice) * dirSign t.direction * jsNumOr t.leverage 1
          then Outcome.WIN
          else if (ex - t.entryPrice) * dirSign t.direction * jsNumOr t.leverage 1 < 0
            then Outcome.LOSS
            else Outcome.BREAKEVEN) ∧
    (closeFreshRecord t now uuid).closed_at = some now := by
  refine ⟨?_, ?_, ?_, ?_, rfl⟩
  · rw [handleWebhookTrade_some, if_neg (fun hne => hne hs)]
    simp only [handleTradeCore, hfresh]
    show upsertTrade st.trades (closeFreshRecord t now uuid) = _
    unfold upsertTrade
    have hany : st.trades.any (fun r => r.id = (closeFreshRecord t now uuid).id) = false := by
      have hjs : (closeFreshRecord t now uuid).id = t.id := by
        simp [closeFreshRecord, jsStrOrP, hid]
      rw [hjs]
      exact findById_none_any hfresh
    rw [hany]
    simp
  · simp [closeFreshRecord, hpnl, hexit]
  · simp [closeFreshRecord, hpnl, hpct, hexit]
  · simp [closeFreshRecord, hpnl, hout, hexit]

/-- C3 counterexample: the §8 scenario trade submitted through
`POST /api/trades` is stored with pnl 0, pnlPercent 0 and outcome BREAKEVEN —
not the claimed WIN/10/10 — so the manual path does not apply the formula. -/
theorem c3_counterexample :
    (createTradeManual scenarioManual emptyState 5 "u" "a" "b" "c").1.trades.map
      (fun r => (r.pnl, r.pnl_percent, r.outcome)) = [(0, 0, .BREAKEVEN)] ∧
    ¬ (createTradeManual scenarioManual emptyState 5 "u" "a" "b" "c").1.trades.map
      (fun r => (r.pnl, r.pnl_percent, r.outcome)) = [(10, 10, .WIN)] := by
  constructor
  · decide
  · decide

/-- C3 witness: the amended theorem at the §8 scenario (LONG, entry 100,
exit 110, leverage 1, nothing else supplied) — the stored row carries
pnl 10, pnlPercent 10, outcome WIN, closed at the request clock. -/
theorem c3_witness :
    (handleWebhookTrade "yota-dev-secret"
      ⟨"yota-dev-secret", .TRADE_CLOSE, some scenarioTrade⟩
      emptyState 5 "u" "a" "b" "c").1.trades
      = [closeFreshRecord scenarioTrade 5 "u"] ∧
    (closeFreshRecord scenarioTrade 5 "u").pnl = 10 ∧
    (closeFreshRecord scenarioTrade 5 "u").pnl_percent = 10 ∧
    (closeFreshRecord scenarioTrade 5 "u").outcome = .WIN ∧
    (closeFreshRecord scenarioTrade 5 "u").closed_at = some 5 := by
  have h := c3_close_unknown_id_derives_fields "yota-dev-secret" "yota-dev-secret"
    emptyState 5 "u" "a" "b" "c" scenarioTrade 110 rfl (by decide) (by decide)
    rfl rfl rfl rfl
  refine ⟨?_, ?_, ?_, ?_, h.2.2.2.2⟩
  · rw [h.1]
    rfl
  · rw [h.2.1]
    with_unfolding_all decide
  · rw [h.2.2.1]
    with_unfolding_all decide
  · rw [h.2.2.2.1]
    with_unfolding_all decide

/-- C9 amended: after a close, `analyzeTrade` emits a CONSECUTIVE_LOSSES
learning event iff at least 3 losses head the newest-first list of the 10
most recent trades of ANY outcome — an OPEN (or WIN, or BREAKEVEN) trade at
the head breaks the run (the source does not restrict the scan to closed
trades; see the counterexample), and any non-LOSS head makes the count 0. -/
theorem c9_consecutive_losses_amended (st : ServerState) (tr : DbTrade)
    (now : Nat) (u1 u2 u3 : String) :
    ((∃ e ∈ (analyzeTrade st tr now u1 u2 u3).1,
        e.pattern_type = some "CONSECUTIVE_LOSSES") ↔
      3 ≤ consecutiveLosses (getAllTrades st 10)) ∧
    (∀ (t : DbTrade) (rest : List DbTrade), t.outcome ≠ .LOSS →
      consecutiveLosses (t :: rest) = 0) := by
  constructor
  · simp only [analyzeTrade]
    constructor
    · rintro ⟨e, he, hpat⟩
      rcases List.mem_append.mp he with h12 | h3
      · rcases List.mem_append.mp h12 with h1 | h2
        · by_cases hcl : 3 ≤ consecutiveLosses (getAllTrades st 10)
          · exact hcl
          · rw [if_neg hcl] at h1
            exact absurd h1 (List.not_mem_nil e)
        · split at h2
          · rw [List.mem_singleton] at h2
            rw [h2] at hpat
            simp at hpat
          · exact absurd h2 (List.not_mem_nil e)
      · split at h3
        · exact absurd h3 (List.not_mem_nil e)
        · split at h3
          · rw [List.mem_singleton] at h3
            rw [h3] at hpat
            simp at hpat
          · split at h3
            · rw [List.mem_singleton] at h3
              rw [h3] at hpat
              simp at hpat
            · exact absurd h3 (List.not_mem_nil e)
    · intro hcl
      refine ⟨⟨u1, some tr.id,
        "Detected " ++ toString (consecutiveLosses (getAllTrades st 10)) ++
          " consecutive losses. Consider reducing position size.",
        some "CONSECUTIVE_LOSSES", some .CHOPPY, none, now⟩,
        List.mem_append.mpr (Or.inl (List.mem_append.mpr (Or.inl ?_))), rfl⟩
      rw [if_pos hcl]
      exact List.mem_singleton.mpr rfl
  · intro t rest h
    unfold consecutiveLosses
    rw [if_neg h]

/-- C9 counterexample: a store whose newest trade is OPEN above three LOSS
trades.  The most recent CLOSED trades start with 3 losses (the claim's
count is ≥ 3, so it predicts an emission), but the code scans trades of any
outcome, the OPEN head breaks the run, and no CONSECUTIVE_LOSSES event is
emitted. -/
theorem c9_counterexample :
    ¬ (∃ e ∈ (analyzeTrade c9MixedState (mkClosedLoss "l1" 90) 2 "a" "b" "c").1,
        e.pattern_type = some "CONSECUTIVE_LOSSES") ∧
    3 ≤ specConsecutiveLosses (getAllTrades c9MixedState 10) := by
  constructor
  · with_unfolding_all decide
  · decide

/-- C9 witness: three losses at the head do emit, and a WIN head counts 0. -/
theorem c9_witness :
    (∃ e ∈ (analyzeTrade c9LossState (mkClosedLoss "l1" 90) 2 "a" "b" "c").1,
        e.pattern_type = some "CONSECUTIVE_LOSSES") ∧
    consecutiveLosses [mkClosedWin "w" 1] = 0 :=
  ⟨(c9_consecutive_losses_amended c9LossState (mkClosedLoss "l1" 90) 2 "a" "b" "c").1.mpr
      (by decide),
    (c9_consecutive_losses_amended c9LossState (mkClosedLoss "l1" 90) 2 "a" "b" "c").2
      (mkClosedWin "w" 1) [] (by decide)⟩

/-- C4 corrected: the CLIENT-side `mergeMemory` realizes the specified lesson
merge — union deduplicated by id with the later-merged (cloud) value winning,
sorted by timestamp ascending, trimmed keeping element 0 plus the last 49 —
exactly (as lists) whenever distinct entries never share a timestamp.  The
SERVER-side sync merge does not (see the counterexample): it keeps the
existing entry on an id collision, does not sort, and trims to the last 50
without preserving element 0. -/
theorem c4_client_merge_refines_spec (a b : AgentMemory)
    (h : (a.lessons ++ b.lessons).Pairwise
      (fun x y => x.timestamp = y.timestamp → x = y)) :
    (mergeMemory a b).lessons = specMergeLessons a.lessons b.lessons := by
  have hsym : ∀ {x y : AgentLesson},
      (x.timestamp = y.timestamp → x = y) → (y.timestamp = x.timestamp → y = x) :=
    fun hxy he => (hxy he.symm).symm
  have hVD := lessonMapValues_perm_dedupKeepLast (a.lessons ++ b.lessons)
  have hinjD : (dedupKeepLast (a.lessons ++ b.lessons)).Pairwise
      (fun x y => x.timestamp = y.timestamp → x = y) :=
    List.Pairwise.sublist (dedupKeepLast_sublist _) h
  have hinjV : (lessonMapValues (a.lessons ++ b.lessons)).Pairwise
      (fun x y => x.timestamp = y.timestamp → x = y) :=
    (List.Perm.pairwise_iff hsym hVD).mpr hinjD
  have hperm : (sortByTs (lessonMapValues (a.lessons ++ b.lessons))).Perm
      (sortByTs (dedupKeepLast (a.lessons ++ b.lessons))) :=
    (sortByTs_perm _).trans (hVD.trans (sortByTs_perm _).symm)
  have heq : sortByTs (lessonMapValues (a.lessons ++ b.lessons))
      = sortByTs (dedupKeepLast (a.lessons ++ b.lessons)) :=
    eq_of_perm_of_sorted_ts hperm (sortByTs_sorted _) (sortByTs_sorted _)
      ((List.Perm.pairwise_iff hsym (sortByTs_perm _)).mpr hinjV)
      ((sortByTs_perm _).nodup_iff.mpr
        (nodup_of_pairwise_ids (pairwise_ids_lessonMapValues _)))
  show capTrim (sortByTs (lessonMapValues (a.lessons ++ b.lessons)))
    = capTrim (sortByTs (dedupKeepLast (a.lessons ++ b.lessons)))
  rw [heq]

/-- C4 counterexample: the server-side sync merge differs from the specified
merge already on two singleton replicas with distinct ids: it appends the
incoming lesson after the stored one instead of sorting by timestamp. -/
theorem c4_counterexample :
    serverMergeLessons [lsn "a" 5 "A"] [lsn "b" 1 "B"]
      ≠ specMergeLessons [lsn "a" 5 "A"] [lsn "b" 1 "B"] := by decide

/-- C4 witness: the client merge at two singleton replicas with distinct
timestamps. -/
theorem c4_witness :
    ([lsn "a" 1 "A"] ++ [lsn "b" 2 "B"]).Pairwise
      (fun x y => x.timestamp = y.timestamp → x = y) ∧
    (mergeMemory (seedMemory [lsn "a" 1 "A"]) (seedMemory [lsn "b" 2 "B"])).lessons
      = specMergeLessons [lsn "a" 1 "A"] [lsn "b" 2 "B"] := by
  have hpw : ([lsn "a" 1 "A"] ++ [lsn "b" 2 "B"]).Pairwise
      (fun x y => x.timestamp = y.timestamp → x = y) := by
    refine List.Pairwise.cons (fun z hz => ?_) (List.pairwise_singleton _ _)
    simp only [List.append_eq, List.nil_append, List.mem_singleton] at hz
    subst hz
    intro he
    exact absurd he (by decide)
  exact ⟨hpw,
    c4_client_merge_refines_spec (seedMemory [lsn "a" 1 "A"])
      (seedMemory [lsn "b" 2 "B"]) hpw⟩

/-- C5 corrected: commutativity fails when the two replicas carry different
content under one id (see the counterexample, and note the spec itself
assumes "collisions should not carry differing content").  Amended: the
merged level is symmetric for ALL replicas; and when entries sharing an id
are equal across the replicas and the two lesson lists fit in the 50-entry
cap, the merged lesson lists are permutations of each other (equal as
sets). -/
theorem c5_merge_comm_amended (a b : AgentMemory) :
    (mergeMemory a b).level = (mergeMemory b a).level ∧
    ((∀ x ∈ a.lessons, ∀ y ∈ b.lessons, x.id = y.id → x = y) →
      a.lessons.length + b.lessons.length ≤ 50 →
      (mergeMemory a b).lessons.Perm (mergeMemory b a).lessons) := by
  constructor
  · show max a.level b.level = max b.level a.level
    exact Nat.max_comm _ _
  · intro h1 h2
    have hVab := lessonMapValues_perm_dedupKeepLast (a.lessons ++ b.lessons)
    have hVba := lessonMapValues_perm_dedupKeepLast (b.lessons ++ a.lessons)
    have hKey := dedupKeepLast_append_perm h1
    have hcap : ∀ l : List AgentLesson, l.length ≤ 50 → capTrim l = l := by
      intro l hl
      unfold capTrim
      rw [if_neg (by omega)]
    have hlen : ∀ u v : List AgentLesson, u.length + v.length ≤ 50 →
        (sortByTs (lessonMapValues (u ++ v))).length ≤ 50 := by
      intro u v huv
      rw [(sortByTs_perm _).length_eq,
        (lessonMapValues_perm_dedupKeepLast _).length_eq]
      calc (dedupKeepLast (u ++ v)).length
          ≤ (u ++ v).length := (dedupKeepLast_sublist _).length_le
        _ = u.length + v.length := List.length_append _ _
        _ ≤ 50 := huv
    show (capTrim (sortByTs (lessonMapValues (a.lessons ++ b.lessons)))).Perm
      (capTrim (sortByTs (lessonMapValues (b.lessons ++ a.lessons))))
    rw [hcap _ (hlen _ _ h2), hcap _ (hlen _ _ (by omega))]
    exact (sortByTs_perm _).trans
      (hVab.trans (hKey.trans (hVba.symm.trans (sortByTs_perm _).symm)))

/-- C5 counterexample: replicas holding differing content under one id.  The
cloud-wins dedup keeps B's entry in `merge(a,b)` and A's entry in
`merge(b,a)`, so the two merged lesson sets differ. -/
theorem c5_counterexample :
    lsn "x" 1 "B" ∈
      (mergeMemory (seedMemory [lsn "x" 1 "A"]) (seedMemory [lsn "x" 1 "B"])).lessons ∧
    lsn "x" 1 "B" ∉
      (mergeMemory (seedMemory [lsn "x" 1 "B"]) (seedMemory [lsn "x" 1 "A"])).lessons := by
  decide

/-- C5 witness: the amended commutativity at two singleton replicas with
distinct ids. -/
theorem c5_witness :
    (mergeMemory (seedMemory [lsn "a" 1 "A"]) (seedMemory [lsn "b" 2 "B"])).level
      = (mergeMemory (seedMemory [lsn "b" 2 "B"]) (seedMemory [lsn "a" 1 "A"])).level ∧
    (mergeMemory (seedMemory [lsn "a" 1 "A"]) (seedMemory [lsn "b" 2 "B"])).lessons.Perm
      (mergeMemory (seedMemory [lsn "b" 2 "B"]) (seedMemory [lsn "a" 1 "A"])).lessons := by
  refine ⟨(c5_merge_comm_amended (seedMemory [lsn "a" 1 "A"])
      (seedMemory [lsn "b" 2 "B"])).1,
    (c5_merge_comm_amended (seedMemory [lsn "a" 1 "A"])
      (seedMemory [lsn "b" 2 "B"])).2 ?_ (by decide)⟩
  intro x hx y hy he
  simp only [seedMemory, List.mem_singleton] at hx hy
  subst hx
  subst hy
  exact absurd he (by decide)

end Yota
